import Mathlib

/-!
Verification of the msmhelper core against its specification.

The repository source under verification provides `msmhelper/tools.py`
(array flattening and shifting utilities) together with the test suite for
the state-trajectory data structure and the implied-timescale pipeline.
The trajectory and timescale modules themselves (`statetraj.py`,
`msm/timescales.py`) are not part of the provided sources, so they are
modelled here from the specification text, while `tools.py` is embedded
directly from its code.

Conventions: Python integers are `Int`; numpy float results that the claims
pin to exact rational eigenvalues are handled over `Rat` and `Real`; the
not-a-number sentinel of a timescale slot is `Option.none`; a raised Python
exception is an `Except.error` / `Option.none` outcome.
-/

/-- Modelled from the spec: the `StateTraj` class of the missing
`statetraj.py` module.  It stores the ordered sequence of trajectory
segments with their original integer state labels; every derived attribute
is a read-only computation over this field. -/
structure StateTraj where
  segments : List (List ℤ)
deriving DecidableEq

/-- Modelled from the spec: the tagged union of raw constructor inputs of
`StateTraj` (design note on dynamic input shape polymorphism): a flat
integer sequence, a list of sequences, or an already-canonical instance. -/
inductive TrajInput where
  | flat (xs : List ℤ)
  | segs (xss : List (List ℤ))
  | canonical (st : StateTraj)
deriving DecidableEq

/-- Modelled from the spec: `StateTraj` construction.  A flat sequence
becomes a single segment, a segment list is taken as is, and an existing
instance is returned unchanged (identity-preserving re-wrap). -/
def StateTraj.make : TrajInput → StateTraj
  | .flat xs => ⟨[xs]⟩
  | .segs xss => ⟨xss⟩
  | .canonical st => st

/-- Modelled from the spec: the original-label form, one sequence per
segment (`state_trajs` property). -/
def StateTraj.state_trajs (st : StateTraj) : List (List ℤ) := st.segments

/-- Modelled from the spec: the distinct state labels observed across all
segments (the derived state set, before sorting). -/
def StateTraj.labels (st : StateTraj) : List ℤ := st.segments.flatten.dedup

/-- Modelled from the spec: number of distinct states observed. -/
def StateTraj.nstates (st : StateTraj) : ℕ := st.labels.length

/-- Modelled from the spec: number of trajectory segments. -/
def StateTraj.ntrajs (st : StateTraj) : ℕ := st.segments.length

/-- Modelled from the spec: the dense index assigned to a label by
sorted-unique assignment — the number of distinct observed labels strictly
below it, so the smallest observed label gets index 0, the next-smallest
index 1, and so on. -/
def StateTraj.labelIndex (st : StateTraj) (x : ℤ) : ℕ :=
  (st.labels.filter (fun y => decide (y < x))).length

/-- Modelled from the spec: the canonical dense-index form of every
segment (`trajs` / `index_trajs` properties, which coincide). -/
def StateTraj.index_trajs (st : StateTraj) : List (List ℤ) :=
  st.segments.map (fun seg => seg.map (fun x => (st.labelIndex x : ℤ)))

/-- Modelled from the spec: the observed state set in increasing order. -/
def StateTraj.sortedLabels (st : StateTraj) : List ℤ :=
  List.insertionSort (· ≤ ·) st.labels

/-- Modelled from the spec: equality of two instances compares the
canonical index forms segment-for-segment, element-for-element. -/
def StateTraj.eqB (a b : StateTraj) : Bool := decide (a.index_trajs = b.index_trajs)

/-- Modelled from the spec: the values a `StateTraj` may be compared
against through `==`; anything that is not a `StateTraj` instance compares
unequal without raising. -/
inductive PyValue where
  | stateTraj (st : StateTraj)
  | intVal (n : ℤ)
  | listVal (xs : List ℤ)
  | noneVal
deriving DecidableEq

/-- Modelled from the spec: the `__eq__` comparison of a `StateTraj`
against an arbitrary value: index-form comparison for instances, `false`
(never an exception) for everything else. -/
def StateTraj.eqValue (a : StateTraj) : PyValue → Bool
  | .stateTraj b => a.eqB b
  | .intVal _ => false
  | .listVal _ => false
  | .noneVal => false

/-- Modelled from the spec: the machine-reconstructable textual form is
reimplemented as a structured encode step carrying the original-label
segment list (design note on the eval-based round trip). -/
def StateTraj.encode (st : StateTraj) : List (List ℤ) := st.state_trajs

/-- Modelled from the spec: decoding the machine-readable form feeds the
segment list back through the constructor. -/
def StateTraj.decode (xss : List (List ℤ)) : StateTraj := StateTraj.make (.segs xss)

/-- Modelled from the spec: the rendering of one segment, opened by the
delimiter of its sequence. -/
def renderSeg (xs : List ℤ) : List Char :=
  '[' :: (List.intercalate [',', ' '] (xs.map (fun x => (toString x).data)) ++ [']'])

/-- Modelled from the spec: the human-readable form renders the segments in
order, so it begins with the opening delimiter of the first segment. -/
def StateTraj.strForm (st : StateTraj) : List Char :=
  (st.state_trajs.map renderSeg).flatten

/-- Modelled from the spec: the `LumpedStateTraj` class adds to the
microstate trajectory a macrostate assignment; only its construction data
is needed here, since the single-argument statistics path must reject any
such instance before touching it. -/
structure LumpedStateTraj where
  microSegments : List (List ℤ)
  macroAssign : List ℤ
deriving DecidableEq

/-- Modelled from the spec: the trajectory objects the transition
statistics builder may receive: a plain `StateTraj` or a lumped one. -/
inductive TrajObj where
  | plain (st : StateTraj)
  | lumped (lst : LumpedStateTraj)

/-- Modelled from the spec: the error taxonomy of the pipeline (type
error, value error, not-implemented error). -/
inductive MsmErr where
  | typeError
  | valueError
  | notImplementedError
deriving DecidableEq

/-- Modelled from the spec: the number of observed transitions from state
`i` at time `t` to state `j` at time `t + tau` within one contiguous
segment; a transition needs both endpoints inside the segment. -/
def transitionCount (xs : List ℤ) (tau : ℕ) (i j : ℤ) : ℕ :=
  ((Finset.range (xs.length - tau)).filter
    (fun t => xs.getD t 0 = i ∧ xs.getD (t + tau) 0 = j)).card

/-- Cross-boundary pairs of the concatenation of two segments: the first
endpoint sits in the tail of the first segment, the second endpoint in the
head of the second segment. -/
def crossCount (a b : List ℤ) (tau : ℕ) (i j : ℤ) : ℕ :=
  ((Finset.Ico (a.length - tau) a.length).filter
    (fun t => a.getD t 0 = i ∧ b.getD (t + tau - a.length) 0 = j)).card

/-- Modelled from the spec: the transition statistics builder accumulates
the count matrix across every segment independently. -/
def countMat (segs : List (List ℤ)) (tau : ℕ) (i j : ℤ) : ℕ :=
  (segs.map (fun s => transitionCount s tau i j)).sum

/-- Modelled from the spec: the row-normalized transition probability
matrix of a canonicalized trajectory at one lagtime, indexed over the dense
state space. -/
def transMatrix (st : StateTraj) (tau : ℕ) : List (List ℚ) :=
  (List.range st.nstates).map (fun i =>
    let row := (List.range st.nstates).map
      (fun j => (countMat st.index_trajs tau (i : ℤ) (j : ℤ) : ℚ))
    row.map (fun c => c / row.sum))

/-- Running cumulative sums of a rational row, as `numpy.cumsum` yields. -/
def cumsumQ : List ℚ → List ℚ
  | [] => []
  | x :: xs => x :: (cumsumQ xs).map (fun y => x + y)

/-- Insert an indexed row entry into a list kept in order of decreasing
entry value. -/
def insertDescPair (p : ℕ × ℚ) : List (ℕ × ℚ) → List (ℕ × ℚ)
  | [] => [p]
  | q :: qs => if q.2 < p.2 then p :: q :: qs else q :: insertDescPair p qs

/-- Order the entries of one probability row by decreasing value, keeping
their column indices. -/
def sortRowDesc (row : List ℚ) : List (ℕ × ℚ) :=
  row.enum.foldr insertDescPair []

/-- Modelled from the spec: the single-argument transition-statistics
builder `_get_cummat` of the missing timescales module.  A lumped
trajectory is rejected with a value error; a plain trajectory yields the
row-wise cumulative matrix of descending transition probabilities together
with the per-row state ordering used. -/
def _get_cummat (trajs : TrajObj) (tau : ℕ) :
    Except MsmErr (List (List ℚ) × List (List ℕ)) :=
  match trajs with
  | .lumped _ => .error .valueError
  | .plain st =>
    let T := transMatrix st tau
    .ok (T.map (fun row => cumsumQ ((sortRowDesc row).map Prod.snd)),
         T.map (fun row => (sortRowDesc row).map Prod.fst))

/-- Modelled from the spec: drop the trivial eigenvalue equal to 1
(stationary mode) from the spectrum. -/
def nontrivialEigs (eigs : List ℚ) : List ℚ :=
  eigs.filter (fun l => decide (l ≠ 1))

/-- Insert a rational into a list kept in order of decreasing magnitude. -/
def insertDescAbs (x : ℚ) : List ℚ → List ℚ
  | [] => [x]
  | y :: ys => if |y| < |x| then x :: y :: ys else y :: insertDescAbs x ys

/-- Sort a list of eigenvalues by descending magnitude. -/
def sortDescAbs (xs : List ℚ) : List ℚ := xs.foldr insertDescAbs []

/-- Modelled from the spec: the slot selection of the timescale estimator.
The non-trivial spectrum is sorted by descending magnitude; each of the
`ntimescales` requested slots holds its eigenvalue when that eigenvalue
lies strictly between 0 and 1, and the not-a-number sentinel (`none`)
when the eigenvalue is out of that domain or the spectrum is exhausted. -/
def selectEigs (eigs : List ℚ) (ntimescales : ℕ) : List (Option ℚ) :=
  (List.range ntimescales).map (fun i =>
    match (sortDescAbs (nontrivialEigs eigs))[i]? with
    | none => none
    | some l => if l ≤ 0 ∨ 1 ≤ l then none else some l)

/-- Modelled from the spec: the timescale estimator `_implied_timescales`
of the missing timescales module.  The eigenvalue extraction of the input
matrix is represented by passing the spectrum explicitly (the concrete
spectra are pinned to their matrices through the characteristic
determinant below); each selected eigenvalue `l` is converted to the
timescale `-tau / ln l`, out-of-domain slots stay the sentinel. -/
noncomputable def _implied_timescales (eigs : List ℚ) (lagtime : ℚ)
    (ntimescales : ℕ) : List (Option ℝ) :=
  (selectEigs eigs ntimescales).map
    (fun o => o.map (fun l : ℚ => -(lagtime : ℝ) / Real.log (l : ℝ)))

/-- Modelled from the spec: a valid lagtime is a positive integer. -/
def isPosIntQ (t : ℚ) : Bool := t.den == 1 && decide (1 ≤ t.num)

/-- Modelled from the spec: the sweep driver `implied_timescales` of the
missing timescales module.  It validates every lagtime (positive integer,
else a type error) and the `reversible` flag (not implemented) before any
computation; on valid input it canonicalizes the trajectory and builds the
per-lagtime transition matrices that feed the numeric eigenvalue stage. -/
def implied_timescales (trajs : List (List ℤ)) (lagtimes : List ℚ)
    (reversible : Bool) (ntimescales : ℕ) :
    Except MsmErr (List (List (List ℚ))) :=
  if lagtimes.all isPosIntQ then
    if reversible then .error .notImplementedError
    else
      .ok (lagtimes.map (fun t =>
        transMatrix (StateTraj.make (.segs trajs)) t.num.toNat))
  else .error .typeError

/-! ## Ordering facts about the canonical label assignment -/

/-- The sorted observed label list is strictly increasing: sorting keeps
the deduplicated labels distinct. -/
theorem sortedLabels_pairwise_lt (st : StateTraj) :
    st.sortedLabels.Pairwise (fun x y => x < y) := by
  have hperm := List.perm_insertionSort (fun x y : ℤ => x ≤ y) st.labels
  have hnd : st.sortedLabels.Nodup :=
    hperm.nodup_iff.mpr (List.nodup_dedup _)
  have hs : st.sortedLabels.Pairwise (fun x y : ℤ => x ≤ y) :=
    List.sorted_insertionSort _ st.labels
  exact (hnd.and hs).imp (fun h => lt_of_le_of_ne h.2 h.1)

/-- In a strictly increasing list, the number of elements below the entry
at position `k` is exactly `k`. -/
theorem filter_lt_length_of_pairwise :
    ∀ (L : List ℤ), L.Pairwise (fun x y => x < y) →
    ∀ (k : ℕ) (hk : k < L.length),
      (L.filter (fun y => decide (y < L.get ⟨k, hk⟩))).length = k := by
  intro L
  induction L with
  | nil => intro _ k hk; simp at hk
  | cons a L ih =>
    intro hL k hk
    have ha : ∀ b ∈ L, a < b := (List.pairwise_cons.mp hL).1
    have hL' : L.Pairwise (fun x y => x < y) := (List.pairwise_cons.mp hL).2
    match k with
    | 0 =>
      have : ∀ y ∈ a :: L, ¬ (y < a) := by
        intro y hy
        rcases List.mem_cons.mp hy with h | h
        · simp [h]
        · exact not_lt.mpr (le_of_lt (ha y h))
      rw [List.length_eq_zero, List.filter_eq_nil_iff]
      intro y hy
      simpa using this y hy
    | k + 1 =>
      have hk' : k < L.length := by simpa using hk
      have hget : (a :: L).get ⟨k + 1, hk⟩ = L.get ⟨k, hk'⟩ := rfl
      have hmem : L.get ⟨k, hk'⟩ ∈ L := L.get_mem _ _
      have hpa : (fun y => decide (y < L.get ⟨k, hk'⟩)) a = true := by
        simp only [decide_eq_true_eq]
        exact ha _ hmem
      rw [hget,
        @List.filter_cons_of_pos ℤ (fun y => decide (y < L.get ⟨k, hk'⟩)) a L hpa,
        List.length_cons, ih hL' k hk']

/-- The dense index of the entry at position `k` of the sorted observed
label list is `k`: sorted-unique assignment. -/
theorem labelIndex_sortedLabels (st : StateTraj) (k : ℕ)
    (hk : k < st.sortedLabels.length) :
    st.labelIndex (st.sortedLabels.get ⟨k, hk⟩) = k := by
  have hperm : st.labels.Perm st.sortedLabels :=
    (List.perm_insertionSort (fun x y : ℤ => x ≤ y) st.labels).symm
  unfold StateTraj.labelIndex
  rw [← List.countP_eq_length_filter, hperm.countP_eq,
    List.countP_eq_length_filter]
  exact filter_lt_length_of_pairwise _ (sortedLabels_pairwise_lt st) k hk

/-- C6: StateTraj construction assigns dense indices to the observed
labels in sorted order of the unique labels — position `k` of the sorted
observed label list gets index `k`, so the smallest label maps to 0, the
next-smallest to 1, and so on; hence the trajectory
`[0,0,0,3,3,3,2,2,2,3,3,3,0,2,3,2,2,2]` canonicalizes to
`[0,0,0,2,2,2,1,1,1,2,2,2,0,1,2,1,1,1]` and is unequal to
`StateTraj([0,0,0,1,1,1,2,2,2,1,1,1,0,2,1,2,2,2])`. -/
theorem claim_C6 :
    (∀ (st : StateTraj) (k : ℕ) (hk : k < st.sortedLabels.length),
      st.labelIndex (st.sortedLabels.get ⟨k, hk⟩) = k)
    ∧ (StateTraj.make
        (.flat [0, 0, 0, 3, 3, 3, 2, 2, 2, 3, 3, 3, 0, 2, 3, 2, 2, 2])).index_trajs
        = [[0, 0, 0, 2, 2, 2, 1, 1, 1, 2, 2, 2, 0, 1, 2, 1, 1, 1]]
    ∧ StateTraj.eqB
        (StateTraj.make
          (.flat [0, 0, 0, 3, 3, 3, 2, 2, 2, 3, 3, 3, 0, 2, 3, 2, 2, 2]))
        (StateTraj.make
          (.flat [0, 0, 0, 1, 1, 1, 2, 2, 2, 1, 1, 1, 0, 2, 1, 2, 2, 2])) = false :=
  ⟨labelIndex_sortedLabels, by decide, by decide⟩

/-- Witness for C6 at a concrete trajectory: in `StateTraj([5, 2, 9])` the
second-smallest observed label, 5, receives dense index 1. -/
theorem claim_C6_witness :
    (StateTraj.make (.flat [5, 2, 9])).labelIndex
      ((StateTraj.make (.flat [5, 2, 9])).sortedLabels.get ⟨1, by decide⟩) = 1 :=
  claim_C6.1 _ 1 (by decide)

/-- C7: StateTraj construction is idempotent — re-wrapping an instance
returns the same instance, and rebuilding from the original-label form
yields an equal instance. -/
theorem claim_C7 (raw : TrajInput) :
    StateTraj.make (.canonical (StateTraj.make raw)) = StateTraj.make raw
    ∧ StateTraj.eqB
        (StateTraj.make (.segs (StateTraj.make raw).state_trajs))
        (StateTraj.make raw) = true := by
  refine ⟨rfl, ?_⟩
  simp [StateTraj.eqB, StateTraj.make, StateTraj.state_trajs]

/-- C8: two instances compare equal exactly when their canonical index
forms match segment-for-segment and element-for-element, and comparison
against any non-StateTraj value is `false` without an exception. -/
theorem claim_C8 (a b : StateTraj) :
    (StateTraj.eqB a b = true ↔ a.index_trajs = b.index_trajs)
    ∧ ∀ v : PyValue, (∀ st, v ≠ PyValue.stateTraj st) →
        StateTraj.eqValue a v = false := by
  constructor
  · simp [StateTraj.eqB]
  · intro v hv
    match v with
    | .stateTraj st => exact absurd rfl (hv st)
    | .intVal _ => rfl
    | .listVal _ => rfl
    | .noneVal => rfl

/-- Witness for C8: a concrete instance never equals the integer 5. -/
theorem claim_C8_witness :
    StateTraj.eqValue (StateTraj.make (.flat [0, 1])) (PyValue.intVal 5) = false :=
  (claim_C8 (StateTraj.make (.flat [0, 1])) (StateTraj.make (.flat [0, 1]))).2
    (PyValue.intVal 5) (fun _ h => PyValue.noConfusion h)

/-- C9: decoding the machine-readable textual form yields an equal
instance, and the human-readable form of a nonempty trajectory begins with
the opening delimiter of the first segment's sequence. -/
theorem claim_C9 (st : StateTraj) :
    StateTraj.eqB (StateTraj.decode (StateTraj.encode st)) st = true
    ∧ (st.state_trajs ≠ [] → st.strForm.head? = some '[') := by
  constructor
  · simp [StateTraj.eqB, StateTraj.decode, StateTraj.encode, StateTraj.make,
      StateTraj.state_trajs]
  · intro h
    unfold StateTraj.strForm
    rcases hseg : st.state_trajs with _ | ⟨x, rest⟩
    · exact absurd hseg h
    · simp [renderSeg]

/-- Witness for C9 at the concrete trajectory `[1, 2]`. -/
theorem claim_C9_witness :
    StateTraj.eqB
      (StateTraj.decode (StateTraj.encode (StateTraj.make (.flat [1, 2]))))
      (StateTraj.make (.flat [1, 2])) = true
    ∧ (StateTraj.make (.flat [1, 2])).strForm.head? = some '[' :=
  ⟨(claim_C9 _).1, (claim_C9 (StateTraj.make (.flat [1, 2]))).2 (by decide)⟩

/-- C4: the single-argument (unlumped) transition-statistics builder
rejects every LumpedStateTraj at every lagtime with a value error. -/
theorem claim_C4 (lst : LumpedStateTraj) (tau : ℕ) :
    _get_cummat (.lumped lst) tau = .error .valueError := rfl

/-- Transition pairs of a concatenation split into the pairs of the first
segment, the cross-boundary pairs, and the pairs of the second segment. -/
theorem transitionCount_append (a b : List ℤ) (tau : ℕ) (i j : ℤ)
    (h1 : tau ≤ a.length) (h2 : tau ≤ b.length) :
    transitionCount (a ++ b) tau i j =
      transitionCount a tau i j + crossCount a b tau i j
        + transitionCount b tau i j := by
  unfold transitionCount crossCount
  rw [List.length_append]
  have e1 : Finset.Ico 0 (a.length - tau) ∪ Finset.Ico (a.length - tau) a.length
      = Finset.Ico 0 a.length :=
    Finset.Ico_union_Ico_eq_Ico (by omega) (by omega)
  have e2 : Finset.Ico 0 a.length ∪ Finset.Ico a.length (a.length + b.length - tau)
      = Finset.Ico 0 (a.length + b.length - tau) :=
    Finset.Ico_union_Ico_eq_Ico (by omega) (by omega)
  have hdInner : Disjoint (Finset.Ico 0 (a.length - tau))
      (Finset.Ico (a.length - tau) a.length) :=
    Finset.Ico_disjoint_Ico_consecutive _ _ _
  have hdOuter : Disjoint
      (Finset.Ico 0 (a.length - tau) ∪ Finset.Ico (a.length - tau) a.length)
      (Finset.Ico a.length (a.length + b.length - tau)) := by
    rw [e1]; exact Finset.Ico_disjoint_Ico_consecutive _ _ _
  rw [Finset.range_eq_Ico, ← e2, ← e1]
  rw [Finset.filter_union, Finset.filter_union]
  rw [Finset.card_union_of_disjoint
      (hdOuter.mono
        (Finset.union_subset_union (Finset.filter_subset _ _) (Finset.filter_subset _ _))
        (Finset.filter_subset _ _)),
    Finset.card_union_of_disjoint (Finset.disjoint_filter_filter hdInner)]
  congr 1
  · congr 1
    · rw [← Finset.range_eq_Ico]
      apply Finset.card_bij (fun t _ => t)
      · intro t ht
        simp only [Finset.mem_filter, Finset.mem_range, Finset.mem_Ico] at ht ⊢
        obtain ⟨htr, hp1, hp2⟩ := ht
        rw [List.getD_append _ _ _ _ (by omega)] at hp1
        rw [List.getD_append _ _ _ _ (by omega)] at hp2
        exact ⟨htr, hp1, hp2⟩
      · intro t _ s _ h; exact h
      · intro t ht
        simp only [Finset.mem_filter, Finset.mem_range, Finset.mem_Ico] at ht
        obtain ⟨htr, hp1, hp2⟩ := ht
        refine ⟨t, ?_, rfl⟩
        simp only [Finset.mem_filter, Finset.mem_range, Finset.mem_Ico]
        rw [List.getD_append _ _ _ _ (by omega), List.getD_append _ _ _ _ (by omega)]
        exact ⟨htr, hp1, hp2⟩
    · apply Finset.card_bij (fun t _ => t)
      · intro t ht
        simp only [Finset.mem_filter, Finset.mem_range, Finset.mem_Ico] at ht ⊢
        obtain ⟨htr, hp1, hp2⟩ := ht
        rw [List.getD_append _ _ _ _ (by omega)] at hp1
        rw [List.getD_append_right _ _ _ _ (by omega)] at hp2
        exact ⟨htr, hp1, hp2⟩
      · intro t _ s _ h; exact h
      · intro t ht
        simp only [Finset.mem_filter, Finset.mem_range, Finset.mem_Ico] at ht
        obtain ⟨htr, hp1, hp2⟩ := ht
        refine ⟨t, ?_, rfl⟩
        simp only [Finset.mem_filter, Finset.mem_range, Finset.mem_Ico]
        rw [List.getD_append _ _ _ _ (by omega),
          List.getD_append_right _ _ _ _ (by omega)]
        exact ⟨htr, hp1, hp2⟩
  · apply Finset.card_bij (fun t _ => t - a.length)
    · intro t ht
      simp only [Finset.mem_filter, Finset.mem_Ico, Finset.mem_range] at ht ⊢
      obtain ⟨⟨htl, htr⟩, hp1, hp2⟩ := ht
      rw [List.getD_append_right _ _ _ _ (by omega)] at hp1
      rw [List.getD_append_right _ _ _ _ (by omega)] at hp2
      refine ⟨by omega, ?_, ?_⟩
      · convert hp1 using 2
      · rw [show t - a.length + tau = t + tau - a.length by omega]
        exact hp2
    · intro t ht s hs h
      simp only [Finset.mem_filter, Finset.mem_range, Finset.mem_Ico] at ht hs
      omega
    · intro t ht
      simp only [Finset.mem_filter, Finset.mem_range, Finset.mem_Ico] at ht
      obtain ⟨htr, hp1, hp2⟩ := ht
      refine ⟨t + a.length, ?_, by omega⟩
      simp only [Finset.mem_filter, Finset.mem_range, Finset.mem_Ico]
      rw [List.getD_append_right _ _ _ _ (by omega),
        List.getD_append_right _ _ _ _ (by omega)]
      refine ⟨by omega, ?_, ?_⟩
      · rw [show t + a.length - a.length = t by omega]; exact hp1
      · rw [show t + a.length + tau - a.length = t + tau by omega]; exact hp2

/-- C5: the transition-statistics builder counts a transition only when
both endpoints lie within the same segment — the count matrix of two
separately declared segments is the sum of the per-segment counts, the
concatenation adds exactly the cross-boundary pairs on top of it, and the
two matrices differ whenever a cross-boundary pair would match. -/
theorem claim_C5 (a b : List ℤ) (tau : ℕ) (i j : ℤ)
    (h1 : tau ≤ a.length) (h2 : tau ≤ b.length) :
    countMat [a, b] tau i j = transitionCount a tau i j + transitionCount b tau i j
    ∧ countMat [a ++ b] tau i j = countMat [a, b] tau i j + crossCount a b tau i j
    ∧ (crossCount a b tau i j ≠ 0 →
        countMat [a ++ b] tau i j ≠ countMat [a, b] tau i j) := by
  have hsum : countMat [a, b] tau i j
      = transitionCount a tau i j + transitionCount b tau i j := by
    simp [countMat]
  have happ : countMat [a ++ b] tau i j
      = countMat [a, b] tau i j + crossCount a b tau i j := by
    have := transitionCount_append a b tau i j h1 h2
    simp only [countMat, List.map_cons, List.map_nil, List.sum_cons, List.sum_nil]
    omega
  exact ⟨hsum, happ, fun hcross => by omega⟩

/-- Witness for C5: with segments `[0, 1]` and `[1, 0]` at lagtime 1 the
pair `1 → 1` crosses the boundary, so the concatenated count differs. -/
theorem claim_C5_witness :
    countMat [([0, 1] : List ℤ), [1, 0]] 1 1 1
        = transitionCount [0, 1] 1 1 1 + transitionCount [1, 0] 1 1 1
    ∧ countMat [([0, 1] : List ℤ) ++ [1, 0]] 1 1 1
        = countMat [[0, 1], [1, 0]] 1 1 1 + crossCount [0, 1] [1, 0] 1 1 1
    ∧ (crossCount ([0, 1] : List ℤ) [1, 0] 1 1 1 ≠ 0 →
        countMat [([0, 1] : List ℤ) ++ [1, 0]] 1 1 1 ≠ countMat [[0, 1], [1, 0]] 1 1 1) :=
  claim_C5 [0, 1] [1, 0] 1 1 1 (by decide) (by decide)

/-! ## The concrete test matrices of the timescale estimator -/

/-- The three-state transition matrix of the timescale test, with rows
`[0.8, 0.2, 0.0]`, `[0.2, 0.78, 0.02]`, `[0.0, 0.2, 0.8]` written as exact
rationals. -/
noncomputable def Pmat : Matrix (Fin 3) (Fin 3) ℝ :=
  !![4/5, 1/5, 0; 1/5, 39/50, 1/50; 0, 1/5, 4/5]

/-- The two-state transition matrix of the sentinel test, with rows
`[0.1, 0.9]`, `[0.8, 0.2]`. -/
noncomputable def Qmat : Matrix (Fin 2) (Fin 2) ℝ :=
  !![1/10, 9/10; 4/5, 1/5]

/-- Characteristic determinant of the three-state matrix. -/
theorem Pmat_det (x : ℝ) :
    (Pmat - x • 1).det = -(x - 1) * (x - 4/5) * (x - 29/50) := by
  simp [Pmat, Matrix.det_fin_three, Matrix.sub_apply, Matrix.smul_apply,
    Matrix.one_apply, smul_eq_mul]
  ring

/-- The three-state matrix has exactly the eigenvalues 1, 4/5 and 29/50. -/
theorem Pmat_eigs (x : ℝ) :
    (Pmat - x • 1).det = 0 ↔ x = 1 ∨ x = 4/5 ∨ x = 29/50 := by
  rw [Pmat_det]
  simp only [mul_eq_zero, sub_eq_zero, neg_eq_zero]
  tauto

/-- Characteristic determinant of the two-state matrix. -/
theorem Qmat_det (x : ℝ) :
    (Qmat - x • 1).det = (x - 1) * (x + 7/10) := by
  simp [Qmat, Matrix.det_fin_two, Matrix.sub_apply, Matrix.smul_apply,
    Matrix.one_apply, smul_eq_mul]
  ring

/-- The two-state matrix has exactly the eigenvalues 1 and -0.7. -/
theorem Qmat_eigs (x : ℝ) :
    (Qmat - x • 1).det = 0 ↔ x = 1 ∨ x = -(7/10) := by
  rw [Qmat_det]
  simp only [mul_eq_zero, sub_eq_zero]
  constructor
  · rintro (h | h)
    · exact Or.inl h
    · right; linarith
  · rintro (h | h)
    · exact Or.inl h
    · right; linarith

/-- The rational literal 4/5 in normalized form. -/
theorem ratLit45 : (4/5 : ℚ) = mkRat 4 5 := by
  rw [Rat.mkRat_eq_div]; norm_num

/-- The rational literal 29/50 in normalized form. -/
theorem ratLit2950 : (29/50 : ℚ) = mkRat 29 50 := by
  rw [Rat.mkRat_eq_div]; norm_num

/-- The rational literal -0.7 in normalized form. -/
theorem ratLitNeg710 : (-(7/10) : ℚ) = mkRat (-7) 10 := by
  rw [Rat.mkRat_eq_div]; norm_num

/-- Slot selection on the spectrum of the three-state matrix: the trivial
eigenvalue 1 is discarded and the rest kept in descending magnitude. -/
theorem selectEigs_P : selectEigs [1, 4/5, 29/50] 2 = [some (4/5), some (29/50)] := by
  rw [ratLit45, ratLit2950]; decide

/-- Slot selection on the spectrum of the two-state matrix: the one
non-trivial eigenvalue is negative, so the single slot is the sentinel. -/
theorem selectEigs_Q : selectEigs [1, -(7/10)] 1 = [none] := by
  rw [ratLitNeg710]; decide

/-- The estimator always yields one entry per requested timescale slot. -/
theorem impl_timescales_length (eigs : List ℚ) (lagtime : ℚ) (n : ℕ) :
    (_implied_timescales eigs lagtime n).length = n := by
  simp [_implied_timescales, selectEigs]

/-- A requested slot whose sorted non-trivial eigenvalue is missing or out
of the open unit interval is the not-a-number sentinel. -/
theorem impl_timescales_slot (eigs : List ℚ) (lagtime : ℚ) (n i : ℕ)
    (hin : i < n)
    (hout : ((sortDescAbs (nontrivialEigs eigs))[i]?).all
      (fun l => decide (l ≤ 0 ∨ 1 ≤ l)) = true) :
    (_implied_timescales eigs lagtime n)[i]? = some none := by
  unfold _implied_timescales selectEigs
  rw [List.getElem?_map, List.getElem?_map, List.getElem?_range hin]
  cases h : (sortDescAbs (nontrivialEigs eigs))[i]? with
  | none => simp [h]
  | some l =>
    rw [h] at hout
    simp only [Option.all_some, decide_eq_true_eq] at hout
    simp [h, hout]

/-- C1: for the transition matrix `[[0.8,0.2,0.0],[0.2,0.78,0.02],
[0.0,0.2,0.8]]` (eigenvalues exactly 1, 4/5 and 29/50) at lagtime 2, the
timescale estimator discards the trivial eigenvalue 1, sorts the rest by
descending magnitude, and maps each eigenvalue to `-tau / ln(lambda)`,
returning exactly `-2/ln(4/5)` and `-2/ln(29/50)`. -/
theorem claim_C1 :
    (∀ x : ℝ, (Pmat - x • 1).det = 0 ↔ x = 1 ∨ x = 4/5 ∨ x = 29/50)
    ∧ _implied_timescales [1, 4/5, 29/50] 2 2
        = [some (-2 / Real.log (4/5)), some (-2 / Real.log (29/50))] := by
  refine ⟨Pmat_eigs, ?_⟩
  unfold _implied_timescales
  rw [selectEigs_P]
  simp only [List.map_cons, List.map_nil, Option.map_some']
  norm_num

/-- C2: the timescale estimator always yields exactly `ntimescales`
entries; every requested slot whose selected non-trivial eigenvalue is out
of domain (at most 0 or at least 1) or beyond the available spectrum holds
the not-a-number sentinel instead of raising; in particular for the matrix
`[[0.1,0.9],[0.8,0.2]]` (eigenvalues exactly 1 and -0.7) at lagtime 1 with
one requested timescale the result is `[NaN]`. -/
theorem claim_C2 :
    (∀ (eigs : List ℚ) (lagtime : ℚ) (n : ℕ),
      (_implied_timescales eigs lagtime n).length = n)
    ∧ (∀ (eigs : List ℚ) (lagtime : ℚ) (n i : ℕ), i < n →
        ((sortDescAbs (nontrivialEigs eigs))[i]?).all
          (fun l => decide (l ≤ 0 ∨ 1 ≤ l)) = true →
        (_implied_timescales eigs lagtime n)[i]? = some none)
    ∧ (∀ x : ℝ, (Qmat - x • 1).det = 0 ↔ x = 1 ∨ x = -(7/10))
    ∧ _implied_timescales [1, -(7/10)] 1 1 = [none] := by
  refine ⟨impl_timescales_length, impl_timescales_slot, Qmat_eigs, ?_⟩
  unfold _implied_timescales
  rw [selectEigs_Q]
  simp

/-- Witness for C2 at the concrete out-of-domain spectrum: the single
requested slot for the eigenvalue -0.7 is the sentinel. -/
theorem claim_C2_witness :
    (_implied_timescales [1, mkRat (-7) 10] 1 1)[0]? = some none :=
  claim_C2.2.1 [1, mkRat (-7) 10] 1 1 0 (by decide) (by decide)

/-- C3: the sweep driver validates before computing — any lagtime list
containing a non-positive or non-integer value yields a type error for
every choice of the remaining arguments, and a fully valid lagtime list
with `reversible = true` yields a not-implemented error; in both cases the
result is the bare error, never a partial output. -/
theorem claim_C3 (trajs : List (List ℤ)) (lagtimes : List ℚ)
    (ntimescales : ℕ) :
    ((∃ t ∈ lagtimes, isPosIntQ t = false) →
      ∀ reversible, implied_timescales trajs lagtimes reversible ntimescales
        = .error .typeError)
    ∧ ((∀ t ∈ lagtimes, isPosIntQ t = true) →
      implied_timescales trajs lagtimes true ntimescales
        = .error .notImplementedError) := by
  constructor
  · rintro ⟨t, ht, hbad⟩ reversible
    unfold implied_timescales
    have hall : lagtimes.all isPosIntQ = false := by
      cases h : lagtimes.all isPosIntQ
      · rfl
      · exact absurd (List.all_eq_true.mp h t ht) (by simp [hbad])
    simp [hall]
  · intro hvalid
    unfold implied_timescales
    have hall : lagtimes.all isPosIntQ = true := List.all_eq_true.mpr hvalid
    simp [hall]

/-- Witness for C3 at the concrete calls of the test: a negative lagtime,
the non-integer lagtime 2.3, and the reversible flag. -/
theorem claim_C3_witness :
    implied_timescales [[1, 0]] [-1, 2] false 1 = .error .typeError
    ∧ implied_timescales [[1, 0]] [1, mkRat 23 10] false 1 = .error .typeError
    ∧ implied_timescales [[1, 0]] [1, 2] true 1 = .error .notImplementedError :=
  ⟨(claim_C3 [[1, 0]] [-1, 2] 1).1 ⟨-1, by decide, by decide⟩ false,
   (claim_C3 [[1, 0]] [1, mkRat 23 10] 1).1 ⟨mkRat 23 10, by decide, by decide⟩ false,
   (claim_C3 [[1, 0]] [1, 2] 1).2 (by decide)⟩

/-! ## Embedding of `msmhelper/tools.py` -/

/-- A numpy ndarray: its shape and its row-major flat integer data; a
valid array satisfies `data.length = shape.prod`. -/
structure NdArray where
  shape : List ℕ
  data : List ℤ
deriving DecidableEq

/-- The input shapes `_flatten_data` distinguishes: an ndarray (any
dimensionality), a list whose rows are all 1-D ndarrays, and a plain list
of numbers. -/
inductive ArrData where
  | arr (a : NdArray)
  | listOfArrs (rows : List (List ℤ))
  | listOfNums (xs : List ℤ)
deriving DecidableEq

/-- The restore information `_flatten_data` returns: no key, the
`data_shape` key, or the `limits` key. -/
inductive ShapeKwargs where
  | empty
  | dataShape (shape : List ℕ)
  | limits (ls : List ℕ)
deriving DecidableEq

/-- Cumulative sums of the row lengths, as `numpy.cumsum` yields. -/
def cumsum : List ℕ → List ℕ
  | [] => []
  | x :: xs => x :: (cumsum xs).map (fun y => x + y)

/-- The `_flatten_data` function of `tools.py`: a list whose rows are all
ndarrays records `kwargs['limits'] = cumsum(lengths)` and concatenates; a
plain list of numbers becomes an array with empty kwargs; an ndarray
records `kwargs['data_shape']` and flattens row-major.
`numpy.concatenate` raises on an empty row list, so that case yields no
result. -/
def _flatten_data : ArrData → Option (List ℤ × ShapeKwargs)
  | .listOfArrs rows =>
    if rows.isEmpty then none
    else some (rows.flatten, .limits (cumsum (rows.map List.length)))
  | .listOfNums xs => some (xs, .empty)
  | .arr a => some (a.data, .dataShape a.shape)

/-- Worker of `numpy.split`: emits the slice between the previous split
point and the next one, then the remainder after the last point. -/
def npSplitGo (xs : List ℤ) (prev : ℕ) : List ℕ → List (List ℤ)
  | [] => [xs.drop prev]
  | p :: ps => ((xs.drop prev).take (p - prev)) :: npSplitGo xs p ps

/-- `numpy.split` at the given indices: the pieces between consecutive
split points, clamped like numpy slices. -/
def npSplit (xs : List ℤ) (ls : List ℕ) : List (List ℤ) := npSplitGo xs 0 ls

/-- `numpy.reshape`: succeeds exactly when the data size matches the
element count of the requested shape. -/
def npReshape (xs : List ℤ) (shape : List ℕ) : Option NdArray :=
  if xs.length = shape.prod then some ⟨shape, xs⟩ else none

/-- The `_unflatten_data` function of `tools.py`: with `data_shape` it
reshapes, with `limits` it splits and drops the trailing empty piece, and
with no key it returns the (by then 1-D) array unchanged. -/
def _unflatten_data (xs : List ℤ) : ShapeKwargs → Option ArrData
  | .empty => some (.arr ⟨[xs.length], xs⟩)
  | .dataShape shape => (npReshape xs shape).map .arr
  | .limits ls => some (.listOfArrs ((npSplit xs ls).dropLast))

/-- The shift table of `shift_data`: `conv = arange(max + 1)` followed by
the fancy assignment `conv[val_old] = val_new`, applied entrywise in order
(the arguments arrive already offset to non-negative values; out-of-range
assignments are left out, where numpy would wrap or raise). -/
def buildConv (n : ℕ) (valOld valNew : List ℤ) : List ℤ :=
  (valOld.zip valNew).foldl (fun conv p => conv.set p.1.toNat p.2)
    ((List.range n).map Int.ofNat)

/-- The elementwise translation step of `shift_data` on the flattened
data: offset to non-negative, look up in the table, offset back. -/
def shiftFlat (flat valOld valNew : List ℤ) (offset : ℤ) : List ℤ :=
  let conv := buildConv
    (((flat.map (fun x => (x - offset).toNat)).foldl max 0) + 1)
    (valOld.map (fun v => v - offset)) (valNew.map (fun v => v - offset))
  flat.map (fun x => conv.getD (x - offset).toNat 0 + offset)

/-- The `shift_data` function of `tools.py`: flatten, offset by the
minimum of the data and the new values (`numpy.min` raises on empty
input, yielding no result), translate through the table and restore the
original structure. -/
def shift_data (array : ArrData) (valOld valNew : List ℤ) : Option ArrData := do
  let (flat, kwargs) ← _flatten_data array
  let fmin ← flat.min?
  let vmin ← valNew.min?
  let offset := min fmin vmin
  _unflatten_data (shiftFlat flat valOld valNew offset) kwargs

/-- Same numpy structure: equal shape for arrays, equal row segmentation
for lists of arrays, equal length for plain lists. -/
def sameStructureB : ArrData → ArrData → Bool
  | .arr a, .arr b => decide (a.shape = b.shape)
  | .listOfArrs r1, .listOfArrs r2 =>
    decide (r1.map List.length = r2.map List.length)
  | .listOfNums x1, .listOfNums x2 => decide (x1.length = x2.length)
  | _, _ => false

/-- Whether the input is the plain-list variant (which `_flatten_data`
converts to an array, so its structure is not restored). -/
def isListOfNums : ArrData → Bool
  | .listOfNums _ => true
  | _ => false

/-- Splitting a flattened row list at the cumulative lengths, starting
after any already-consumed prefix, restores the rows followed by the one
empty trailing piece `numpy.split` produces. -/
theorem npSplitGo_flatten (rows : List (List ℤ)) :
    ∀ (pre : List ℤ),
      npSplitGo (pre ++ rows.flatten) pre.length
        ((cumsum (rows.map List.length)).map (fun y => pre.length + y))
      = rows ++ [[]] := by
  induction rows with
  | nil =>
    intro pre
    simp [npSplitGo, cumsum]
  | cons r rest ih =>
    intro pre
    simp only [List.map_cons, cumsum, List.flatten_cons, List.map_map,
      npSplitGo, List.cons_append]
    have hdrop : (pre ++ (r ++ rest.flatten)).drop pre.length = r ++ rest.flatten :=
      List.drop_left pre (r ++ rest.flatten)
    have htake : (r ++ rest.flatten).take r.length = r := List.take_left r rest.flatten
    rw [hdrop, Nat.add_sub_cancel_left, htake]
    congr 1
    have := ih (pre ++ r)
    rw [List.append_assoc, List.length_append] at this
    rw [← this]
    congr 1
    simp [Function.comp_def, Nat.add_assoc]

/-- `numpy.split` of a concatenation at its cumulative lengths restores
the rows plus a trailing empty piece. -/
theorem npSplit_flatten (rows : List (List ℤ)) :
    npSplit rows.flatten (cumsum (rows.map List.length)) = rows ++ [[]] := by
  have := npSplitGo_flatten rows []
  simpa [npSplit] using this

/-- The piece lengths of `numpy.split` depend only on the input length
and the split points. -/
theorem npSplitGo_map_length (ls : List ℕ) :
    ∀ (xs ys : List ℤ) (prev : ℕ), xs.length = ys.length →
      (npSplitGo ys prev ls).map List.length
        = (npSplitGo xs prev ls).map List.length := by
  induction ls with
  | nil => intro xs ys prev h; simp [npSplitGo, h]
  | cons p ps ih =>
    intro xs ys prev h
    simp [npSplitGo, h, ih xs ys p h]

/-- The translation step of `shift_data` keeps the flattened length. -/
theorem shiftFlat_length (flat valOld valNew : List ℤ) (offset : ℤ) :
    (shiftFlat flat valOld valNew offset).length = flat.length := by
  simp [shiftFlat]

/-- Round trip for an ndarray input: reshaping the flattened data with the
recorded shape restores the array exactly. -/
theorem unflatten_flatten_arr (a : NdArray) (h : a.data.length = a.shape.prod) :
    (_flatten_data (.arr a)).bind (fun p => _unflatten_data p.1 p.2)
      = some (.arr a) := by
  simp [_flatten_data, _unflatten_data, npReshape, h]

/-- Round trip for a nonempty list of 1-D arrays: splitting the
concatenation at the recorded cumulative lengths restores the rows. -/
theorem unflatten_flatten_list (rows : List (List ℤ)) (h : rows ≠ []) :
    (_flatten_data (.listOfArrs rows)).bind (fun p => _unflatten_data p.1 p.2)
      = some (.listOfArrs rows) := by
  have hne : rows.isEmpty = false := by
    cases rows with
    | nil => exact absurd rfl h
    | cons r rest => rfl
  simp only [_flatten_data, hne, Bool.false_eq_true, if_neg, ite_false,
    Option.some_bind, _unflatten_data, npSplit_flatten, Option.some.injEq]
  rw [List.dropLast_concat]

/-- Whenever `shift_data` succeeds on an ndarray or a list-of-arrays
input, its result has the input's shape / segmentation (the plain-list
variant is excluded: `_flatten_data` turns it into an array). -/
theorem shift_data_structure (x : ArrData) (valOld valNew : List ℤ)
    (y : ArrData) (hx : isListOfNums x = false)
    (h : shift_data x valOld valNew = some y) :
    sameStructureB x y = true := by
  match x with
  | .listOfNums _ => simp [isListOfNums] at hx
  | .arr a =>
    simp only [shift_data, _flatten_data, Option.bind_eq_bind, Option.some_bind] at h
    cases hm1 : a.data.min? with
    | none => rw [hm1] at h; exact Option.noConfusion h
    | some fmin =>
      rw [hm1] at h
      cases hm2 : valNew.min? with
      | none => rw [hm2] at h; exact Option.noConfusion h
      | some vmin =>
        rw [hm2] at h
        simp only [Option.some_bind] at h
        simp only [_unflatten_data, npReshape, shiftFlat_length] at h
        by_cases hlen : a.data.length = a.shape.prod
        · rw [if_pos hlen] at h
          simp only [Option.map_some', Option.some.injEq] at h
          subst h
          simp [sameStructureB]
        · rw [if_neg hlen] at h
          simp at h
  | .listOfArrs rows =>
    cases hrows : rows.isEmpty with
    | true =>
      simp only [shift_data, _flatten_data, hrows, if_true, Option.bind_eq_bind,
        Option.none_bind] at h
      exact Option.noConfusion h
    | false =>
      simp only [shift_data, _flatten_data, hrows, Bool.false_eq_true, if_false,
        Option.bind_eq_bind, Option.some_bind] at h
      cases hm1 : rows.flatten.min? with
      | none => rw [hm1] at h; exact Option.noConfusion h
      | some fmin =>
        rw [hm1] at h
        cases hm2 : valNew.min? with
        | none => rw [hm2] at h; exact Option.noConfusion h
        | some vmin =>
          rw [hm2] at h
          simp only [Option.some_bind, _unflatten_data, Option.some.injEq] at h
          subst h
          simp only [sameStructureB, decide_eq_true_eq, npSplit]
          rw [List.map_dropLast]
          rw [npSplitGo_map_length _ rows.flatten _ 0 (shiftFlat_length _ _ _ _).symm]
          have hsplit := npSplit_flatten rows
          simp only [npSplit] at hsplit
          rw [hsplit, List.map_append]
          simp

/-- C10 (amended): for every ndarray (1-D or multi-dimensional) and every
nonempty list of 1-D ndarrays, `_unflatten_data` applied to the output of
`_flatten_data` restores exactly the input's structure and contents; and
whenever `shift_data` returns a result on such an input, that result has
the same shape / segmentation as the input. -/
theorem claim_C10 :
    (∀ a : NdArray, a.data.length = a.shape.prod →
      (_flatten_data (.arr a)).bind (fun p => _unflatten_data p.1 p.2)
        = some (.arr a))
    ∧ (∀ rows : List (List ℤ), rows ≠ [] →
      (_flatten_data (.listOfArrs rows)).bind (fun p => _unflatten_data p.1 p.2)
        = some (.listOfArrs rows))
    ∧ (∀ (x : ArrData) (valOld valNew : List ℤ) (y : ArrData),
        isListOfNums x = false → shift_data x valOld valNew = some y →
        sameStructureB x y = true) :=
  ⟨unflatten_flatten_arr, unflatten_flatten_list, shift_data_structure⟩

/-- Counterexample to C10 as stated: at the empty list of ndarrays the
flatten step raises (`numpy.concatenate` needs at least one array), so
the round trip does not restore the input. -/
theorem claim_C10_counterexample :
    (_flatten_data (.listOfArrs [])).bind (fun p => _unflatten_data p.1 p.2)
      ≠ some (.listOfArrs []) := by decide

/-- Witness for C10 at concrete inputs: a 2-by-2 array, the segment list
`[[1, 2], [3]]`, and the shift of value 1 to 5 on that list. -/
theorem claim_C10_witness :
    (_flatten_data (.arr ⟨[2, 2], [1, 2, 3, 4]⟩)).bind
        (fun p => _unflatten_data p.1 p.2) = some (.arr ⟨[2, 2], [1, 2, 3, 4]⟩)
    ∧ (_flatten_data (.listOfArrs [[1, 2], [3]])).bind
        (fun p => _unflatten_data p.1 p.2) = some (.listOfArrs [[1, 2], [3]])
    ∧ sameStructureB (.listOfArrs [[1, 2], [3]]) (.listOfArrs [[5, 2], [3]]) = true :=
  ⟨claim_C10.1 _ (by decide), claim_C10.2.1 _ (by decide),
   claim_C10.2.2 (.listOfArrs [[1, 2], [3]]) [1] [5] (.listOfArrs [[5, 2], [3]])
     (by decide) (by decide)⟩

/-- Validation of the modelled builder against the repository's test: the
trajectory `[1,2,1,2,2,1,1,2,2,1,2]` at lagtime 1 has the transition
probability matrix `[[0.2, 0.8], [0.6, 0.4]]`. -/
theorem transMatrix_example :
    transMatrix (StateTraj.make (.flat [1, 2, 1, 2, 2, 1, 1, 2, 2, 1, 2])) 1
      = [[1/5, 4/5], [3/5, 2/5]] := by
  have hns : (StateTraj.make (.flat [1, 2, 1, 2, 2, 1, 1, 2, 2, 1, 2])).nstates = 2 := by
    decide
  have h00 : countMat
      (StateTraj.make (.flat [1, 2, 1, 2, 2, 1, 1, 2, 2, 1, 2])).index_trajs 1 0 0 = 1 := by
    decide
  have h01 : countMat
      (StateTraj.make (.flat [1, 2, 1, 2, 2, 1, 1, 2, 2, 1, 2])).index_trajs 1 0 1 = 4 := by
    decide
  have h10 : countMat
      (StateTraj.make (.flat [1, 2, 1, 2, 2, 1, 1, 2, 2, 1, 2])).index_trajs 1 1 0 = 3 := by
    decide
  have h11 : countMat
      (StateTraj.make (.flat [1, 2, 1, 2, 2, 1, 1, 2, 2, 1, 2])).index_trajs 1 1 1 = 2 := by
    decide
  rw [transMatrix, hns]
  norm_num [List.range_succ, h00, h01, h10, h11]

/-- Validation of the modelled builder against the repository's test:
`_get_cummat` on that trajectory yields the cumulative matrix
`[[0.8, 1.0], [0.6, 1.0]]` with the state orderings `[1, 0]` and `[0, 1]`. -/
theorem get_cummat_example :
    _get_cummat (.plain (StateTraj.make (.flat [1, 2, 1, 2, 2, 1, 1, 2, 2, 1, 2]))) 1
      = .ok ([[4/5, 1], [3/5, 1]], [[1, 0], [0, 1]]) := by
  have hunf : _get_cummat (.plain (StateTraj.make (.flat [1, 2, 1, 2, 2, 1, 1, 2, 2, 1, 2]))) 1
      = .ok (((transMatrix (StateTraj.make (.flat [1, 2, 1, 2, 2, 1, 1, 2, 2, 1, 2])) 1).map
          (fun row => cumsumQ ((sortRowDesc row).map Prod.snd)),
        (transMatrix (StateTraj.make (.flat [1, 2, 1, 2, 2, 1, 1, 2, 2, 1, 2])) 1).map
          (fun row => (sortRowDesc row).map Prod.fst))) := rfl
  rw [hunf, transMatrix_example]
  have hrow1 : sortRowDesc [1/5, 4/5] = [(1, 4/5), (0, 1/5)] := by
    rw [sortRowDesc]
    norm_num [List.enum, List.enumFrom, insertDescPair, abs]
  have hrow2 : sortRowDesc [3/5, 2/5] = [(0, 3/5), (1, 2/5)] := by
    rw [sortRowDesc]
    norm_num [List.enum, List.enumFrom, insertDescPair, abs]
  rw [List.map_cons, List.map_cons, List.map_nil, List.map_cons, List.map_cons,
    List.map_nil, hrow1, hrow2]
  norm_num [cumsumQ]

/-- Validation of the modelled driver against the repository's test: the
test trajectory's transition probability matrix at lagtime 1. -/
theorem transMatrix_driver_lag1 :
    transMatrix (StateTraj.make (.segs [[1, 1, 1, 1, 1, 1, 0, 0, 0, 0, 0, 0, 1]])) 1
      = [[5/6, 1/6], [1/6, 5/6]] := by
  have hns : (StateTraj.make (.segs [[1, 1, 1, 1, 1, 1, 0, 0, 0, 0, 0, 0, 1]])).nstates = 2 := by
    decide
  have h00 : countMat
      (StateTraj.make (.segs [[1, 1, 1, 1, 1, 1, 0, 0, 0, 0, 0, 0, 1]])).index_trajs 1 0 0 = 5 := by
    decide
  have h01 : countMat
      (StateTraj.make (.segs [[1, 1, 1, 1, 1, 1, 0, 0, 0, 0, 0, 0, 1]])).index_trajs 1 0 1 = 1 := by
    decide
  have h10 : countMat
      (StateTraj.make (.segs [[1, 1, 1, 1, 1, 1, 0, 0, 0, 0, 0, 0, 1]])).index_trajs 1 1 0 = 1 := by
    decide
  have h11 : countMat
      (StateTraj.make (.segs [[1, 1, 1, 1, 1, 1, 0, 0, 0, 0, 0, 0, 1]])).index_trajs 1 1 1 = 5 := by
    decide
  rw [transMatrix, hns]
  norm_num [List.range_succ, h00, h01, h10, h11]

/-- Validation of the modelled driver against the repository's test: the
test trajectory's transition probability matrix at lagtime 2. -/
theorem transMatrix_driver_lag2 :
    transMatrix (StateTraj.make (.segs [[1, 1, 1, 1, 1, 1, 0, 0, 0, 0, 0, 0, 1]])) 2
      = [[4/5, 1/5], [1/3, 2/3]] := by
  have hns : (StateTraj.make (.segs [[1, 1, 1, 1, 1, 1, 0, 0, 0, 0, 0, 0, 1]])).nstates = 2 := by
    decide
  have h00 : countMat
      (StateTraj.make (.segs [[1, 1, 1, 1, 1, 1, 0, 0, 0, 0, 0, 0, 1]])).index_trajs 2 0 0 = 4 := by
    decide
  have h01 : countMat
      (StateTraj.make (.segs [[1, 1, 1, 1, 1, 1, 0, 0, 0, 0, 0, 0, 1]])).index_trajs 2 0 1 = 1 := by
    decide
  have h10 : countMat
      (StateTraj.make (.segs [[1, 1, 1, 1, 1, 1, 0, 0, 0, 0, 0, 0, 1]])).index_trajs 2 1 0 = 2 := by
    decide
  have h11 : countMat
      (StateTraj.make (.segs [[1, 1, 1, 1, 1, 1, 0, 0, 0, 0, 0, 0, 1]])).index_trajs 2 1 1 = 4 := by
    decide
  rw [transMatrix, hns]
  norm_num [List.range_succ, h00, h01, h10, h11]

/-- Validation of the modelled driver against the repository's test: on
valid input it returns the per-lagtime transition matrices that the
numeric eigenvalue stage consumes. -/
theorem driver_example :
    implied_timescales [[1, 1, 1, 1, 1, 1, 0, 0, 0, 0, 0, 0, 1]] [1, 2] false 1
      = .ok [[[5/6, 1/6], [1/6, 5/6]], [[4/5, 1/5], [1/3, 2/3]]] := by
  have hunf : implied_timescales [[1, 1, 1, 1, 1, 1, 0, 0, 0, 0, 0, 0, 1]] [1, 2] false 1
      = .ok (([1, 2] : List ℚ).map (fun t =>
          transMatrix (StateTraj.make (.segs [[1, 1, 1, 1, 1, 1, 0, 0, 0, 0, 0, 0, 1]]))
            t.num.toNat)) := rfl
  rw [hunf, List.map_cons, List.map_cons, List.map_nil]
  rw [show ((1 : ℚ).num.toNat) = 1 from rfl, show ((2 : ℚ).num.toNat) = 2 from rfl]
  rw [transMatrix_driver_lag1, transMatrix_driver_lag2]

/-- The lag-1 transition matrix of the driver test, over the reals. -/
noncomputable def R1mat : Matrix (Fin 2) (Fin 2) ℝ := !![5/6, 1/6; 1/6, 5/6]

/-- The lag-2 transition matrix of the driver test, over the reals. -/
noncomputable def R2mat : Matrix (Fin 2) (Fin 2) ℝ := !![4/5, 1/5; 1/3, 2/3]

/-- The lag-1 matrix of the driver test has eigenvalues 1 and 2/3. -/
theorem R1mat_eigs (x : ℝ) :
    (R1mat - x • 1).det = 0 ↔ x = 1 ∨ x = 2/3 := by
  have hdet : (R1mat - x • 1).det = (x - 1) * (x - 2/3) := by
    simp [R1mat, Matrix.det_fin_two, Matrix.sub_apply, Matrix.smul_apply,
      Matrix.one_apply, smul_eq_mul]
    ring
  rw [hdet]
  simp only [mul_eq_zero, sub_eq_zero]

/-- The lag-2 matrix of the driver test has eigenvalues 1 and 7/15. -/
theorem R2mat_eigs (x : ℝ) :
    (R2mat - x • 1).det = 0 ↔ x = 1 ∨ x = 7/15 := by
  have hdet : (R2mat - x • 1).det = (x - 1) * (x - 7/15) := by
    simp [R2mat, Matrix.det_fin_two, Matrix.sub_apply, Matrix.smul_apply,
      Matrix.one_apply, smul_eq_mul]
    ring
  rw [hdet]
  simp only [mul_eq_zero, sub_eq_zero]

/-- The rational literal 2/3 in normalized form. -/
theorem ratLit23 : (2/3 : ℚ) = mkRat 2 3 := by
  rw [Rat.mkRat_eq_div]; norm_num

/-- The rational literal 7/15 in normalized form. -/
theorem ratLit715 : (7/15 : ℚ) = mkRat 7 15 := by
  rw [Rat.mkRat_eq_div]; norm_num

/-- Validation against the repository's test: the lag-1 spectrum yields
the implied timescale `-1/ln(2/3)`. -/
theorem timescale_driver_lag1 :
    _implied_timescales [1, 2/3] 1 1 = [some (-1 / Real.log (2/3))] := by
  have hsel : selectEigs [1, 2/3] 1 = [some (2/3)] := by
    rw [ratLit23]; decide
  unfold _implied_timescales
  rw [hsel]
  simp only [List.map_cons, List.map_nil, Option.map_some']
  norm_num

/-- Validation against the repository's test: the lag-2 spectrum yields
the implied timescale `-2/ln(7/15)`. -/
theorem timescale_driver_lag2 :
    _implied_timescales [1, 7/15] 2 1 = [some (-2 / Real.log (7/15))] := by
  have hsel : selectEigs [1, 7/15] 1 = [some (7/15)] := by
    rw [ratLit715]; decide
  unfold _implied_timescales
  rw [hsel]
  simp only [List.map_cons, List.map_nil, Option.map_some']
  norm_num
